import Mathlib

/-!
# Native builtins of the runtime: `src/rt/rust_builtin.cpp`

A shallow embedding of the interior-vector builtins (`ivec_reserve`,
`ivec_reserve_shared`, `ivec_on_heap`, `ivec_to_ptr`, `get_ivec_size`,
`ivec_copy_from_buf`, `ivec_copy_from_buf_shared`) and of the task and
messaging builtins (`task_join`, `chan_id_send`, `port_recv`).

Conventions of the embedding.

* `size_t` values are natural numbers; every `size_t` multiplication and
  addition of the source is reduced modulo `2 ^ bits`, `bits` being the width
  of `size_t` on the target (a parameter: the source builds for 32 and 64 bit).
* Objects that the source reaches through a pointer (`rust_task *`,
  `rust_port *`, `rust_chan *`) live in the `World` under their address, a
  natural number.  The heap part of an interior vector is owned by the vector
  and is embedded in it: `payload_ptr = none` is the null pointer.
* A store through a null pointer ends the run: functions that can perform one
  return an `Option`, `none` being that fault.
* Calls that suspend the task (`yield`) take the transformation of the world
  performed by the rest of the system until the task is resumed.
* The `LOG` lines of the source have no effect on the state and are left out.
-/

namespace RustBuiltin

/-! ## Machine words and raw bytes -/

/-- Reduction of a natural number to a `size_t` of `bits` bits. -/
def size_t_wrap (bits x : Nat) : Nat := x % 2 ^ bits

/-- The value of `sizeof(size_t)` in bytes. -/
def sizeof_size_t (bits : Nat) : Nat := bits / 8

/-- Reads `n` bytes of raw memory starting at address `p`. -/
def mem_read (m : Nat → Nat) (p n : Nat) : List Nat :=
  (List.range n).map fun i => m (p + i)

/-- Stores the bytes `bs` into raw memory starting at address `p`. -/
def mem_write (m : Nat → Nat) (p : Nat) (bs : List Nat) : Nat → Nat :=
  fun a => if p ≤ a ∧ a < p + bs.length then bs.getD (a - p) 0 else m a

/-- Reads `n` bytes from the start of a byte array (bytes past its end read as 0). -/
def bytes_read (src : List Nat) (n : Nat) : List Nat :=
  (List.range n).map fun i => src.getD i 0

/-- Overwrites the start of the byte array `dst` with the bytes `bs`. -/
def bytes_write (dst bs : List Nat) : List Nat :=
  bs ++ dst.drop bs.length

/-- The bytes of a freshly allocated region of `n` bytes: the allocator does
not initialise them, `g` gives their content. -/
def fresh_bytes (g : Nat → Nat) (n : Nat) : List Nat :=
  (List.range n).map g

/-! ## Tasks, ports, channels and the kernel registry -/

abbrev rust_task_id := Nat

abbrev rust_port_id := Nat

/-- The resource a task blocks on or a lock belongs to: a task or a port,
named by its address. -/
inductive rust_cond where
  | task (p : Nat)
  | port (p : Nat)
deriving DecidableEq, Repr

/-- Modelled from the spec: the lifecycle state of a task (section 3:
Runnable, Blocked on a resource with a reason, Dead); the class `rust_task`
is declared outside the sources at hand. The failed flag is a separate
field of the task, as `task_join` reads it. -/
inductive task_state where
  | runnable
  | blocked (cond : rust_cond) (reason : String)
  | dead
deriving DecidableEq, Repr

/-- Modelled from the spec: the fields of `rust_task` that the builtins
read or write (`id`, `failed`, `tasks_waiting_to_join`, `rendezvous_ptr`),
the lifecycle state behind `dead()` and `block`, and the port registry of
the task behind `get_port_by_id`. -/
structure rust_task where
  id : rust_task_id
  state : task_state
  failed : Bool
  tasks_waiting_to_join : List Nat
  rendezvous_ptr : Nat
  port_table : List (rust_port_id × Nat)
deriving DecidableEq, Repr

/-- Modelled from the spec: a channel (section 3): a reference count, the
bound port, the unit size copied from that port, and its buffered messages. -/
structure rust_chan where
  ref_count : Nat
  port : Nat
  unit_sz : Nat
  buffer : List (List Nat)
deriving DecidableEq, Repr

/-- Modelled from the spec: a port (section 3): identity, owning task, unit
size, the channels that have data buffered for it, its reference count, and
the channel `remote_chan` that `chan_id_send` sends on. -/
structure rust_port where
  id : rust_port_id
  task : Nat
  unit_sz : Nat
  chans : List Nat
  remote_chan : Nat
  ref_count : Nat
deriving DecidableEq, Repr

/-- The calls into the scheduler, the locks and the messaging layer that a
builtin performs, in the order of their execution. -/
inductive Event where
  | lock (cond : rust_cond)
  | unlock (cond : rust_cond)
  | join_push (target waiter : Nat)
  | block (task : Nat) (cond : rust_cond)
  | yield (task : Nat) (checkpoint : Nat)
  | receive (port dptr : Nat) (got : Bool)
  | rendezvous (task dptr : Nat)
  | send (chan sptr : Nat)
  | fail (task : Nat)
deriving DecidableEq, Repr

/-- The state the builtins run in: the kernel registry (task identity to
task address), the task, port and channel objects by address, raw memory,
and the events performed so far. -/
structure World where
  task_table : List (rust_task_id × Nat)
  tasks : Nat → rust_task
  ports : Nat → rust_port
  chans : Nat → rust_chan
  mem : Nat → Nat
  log : List Event

/-- Appends an event to the log. -/
def World.emit (w : World) (e : Event) : World :=
  { w with log := w.log ++ [e] }

/-- Replaces the task object at address `p`. -/
def World.set_task (w : World) (p : Nat) (t : rust_task) : World :=
  { w with tasks := fun q => if q = p then t else w.tasks q }

/-- Replaces the channel object at address `p`. -/
def World.set_chan (w : World) (p : Nat) (c : rust_chan) : World :=
  { w with chans := fun q => if q = p then c else w.chans q }

/-- Replaces the port object at address `p`. -/
def World.set_port (w : World) (p : Nat) (c : rust_port) : World :=
  { w with ports := fun q => if q = p then c else w.ports q }

/-- Modelled from the spec: `rust_kernel::get_task_by_id` (section 4.2): a
handle to the task registered under the identity, or an empty result if no
such identity is registered. The reference the handle holds on the task is
taken and dropped within the builtin and is not part of the state. -/
def get_task_by_id (w : World) (tid : rust_task_id) : Option Nat :=
  List.lookup tid w.task_table

/-- Modelled from the spec: `rust_task::get_port_by_id` (section 4.4): the
lookup of a port in the port registry of a task. -/
def get_port_by_id (w : World) (task : Nat) (pid : rust_port_id) : Option Nat :=
  List.lookup pid (w.tasks task).port_table

/-- Modelled from the spec: `rust_task::dead` (section 4.1, state machine):
whether the lifecycle state of the task is Dead. -/
def rust_task_dead (w : World) (p : Nat) : Bool :=
  match (w.tasks p).state with
  | task_state.dead => true
  | _ => false

/-- Modelled from the spec: `rust_task::block` (section 4.1): transitions the
task to Blocked, recording the resource it waits on and the reason. -/
def rust_task_block (w : World) (task : Nat) (cond : rust_cond) (reason : String) : World :=
  (w.set_task task { w.tasks task with state := task_state.blocked cond reason }).emit
    (Event.block task cond)

/-- Modelled from the spec: the wake-up of a blocked task (section 4.1): the
task is Runnable again. -/
def rust_task_wakeup (w : World) (p : Nat) : World :=
  match (w.tasks p).state with
  | task_state.blocked _ _ => w.set_task p { w.tasks p with state := task_state.runnable }
  | _ => w

/-- Modelled from the spec: `rust_task::yield` (section 4.1): a scheduling
point tagged with a checkpoint; `sched` is what the rest of the system does
to the world until the task runs again. -/
def rust_task_yield (sched : World → World) (w : World) (task : Nat) (checkpoint : Nat) : World :=
  let w1 := w.emit (Event.yield task checkpoint)
  { sched w1 with log := w1.log }

/-- Modelled from the spec: `rust_task::fail` (section 4.1): the task
transitions to Dead with the failed flag set, and all of its joiners are
woken. -/
def rust_task_fail (w : World) (task : Nat) : World :=
  let w1 := (w.set_task task
    { w.tasks task with state := task_state.dead, failed := true }).emit (Event.fail task)
  (w.tasks task).tasks_waiting_to_join.foldl rust_task_wakeup w1

/-- The resource a task in the given lifecycle state is blocked on, if any. -/
def blocked_on : task_state → Option rust_cond
  | task_state.blocked cond _ => some cond
  | _ => none

/-- Modelled from the spec: `rust_chan::send` (section 4.4): copies `unit_sz`
bytes from `sptr` either into the pending rendezvous slot of the task that
owns the bound port, clearing the slot and waking that task, or into the
buffered-message queue otherwise. -/
def rust_chan_send (w : World) (chan sptr : Nat) : World :=
  let c := w.chans chan
  let port := w.ports c.port
  let owner := w.tasks port.task
  let payload := mem_read w.mem sptr c.unit_sz
  let w := w.emit (Event.send chan sptr)
  if blocked_on owner.state = some (rust_cond.port c.port) ∧ owner.rendezvous_ptr ≠ 0 then
    let w := { w with mem := mem_write w.mem owner.rendezvous_ptr payload }
    rust_task_wakeup (w.set_task port.task { owner with rendezvous_ptr := 0 }) port.task
  else
    let w := w.set_chan chan { c with buffer := c.buffer ++ [payload] }
    if chan ∈ port.chans then w
    else w.set_port c.port { port with chans := port.chans ++ [chan] }

/-- The first channel of the list that has a message buffered, with that
message. -/
def first_buffered (w : World) : List Nat → Option (Nat × List Nat)
  | [] => none
  | c :: cs =>
    match (w.chans c).buffer with
    | m :: _ => some (c, m)
    | [] => first_buffered w cs

/-- Modelled from the spec: `rust_port::receive` (section 4.3): dequeues a
buffered message from a channel of the port that has data queued, copying
exactly `unit_sz` bytes into the destination, and reports whether it did. -/
def rust_port_receive (w : World) (port dptr : Nat) : World × Bool :=
  match first_buffered w (w.ports port).chans with
  | some (c, m) =>
    let w1 := w.set_chan c { w.chans c with buffer := (w.chans c).buffer.tail }
    let w2 := { w1 with mem := mem_write w1.mem dptr (bytes_read m (w.ports port).unit_sz) }
    (w2.emit (Event.receive port dptr true), true)
  | none => (w.emit (Event.receive port dptr false), false)

/-! ## Interior vectors -/

/-- Modelled from the spec: the type descriptor (section 3): element size,
alignment and the stateful flag; the source reads `size` only. -/
structure type_desc where
  size : Nat
  align : Nat
  is_stateful : Bool
deriving DecidableEq, Repr

/-- Modelled from the spec: the heap block of a spilled buffer (section 3),
`rust_ivec_heap` in the source: its own fill and the element data. -/
structure rust_ivec_heap where
  fill : Nat
  data : List Nat
deriving DecidableEq, Repr

/-- Modelled from the spec: the buffer (section 3), `rust_ivec` in the
source: a fill count, a capacity `alloc`, and the payload, which the source
reads either as the inline bytes `payload.data` or as the pointer
`payload.ptr` to the heap block. The two members are kept as two fields and
their overlap in memory is not modelled: the source reads `payload.ptr` only
when `fill` is 0. `payload_ptr = none` is the null pointer. -/
structure rust_ivec where
  fill : Nat
  alloc : Nat
  payload_data : List Nat
  payload_ptr : Option rust_ivec_heap
deriving DecidableEq, Repr

/-- Modelled from the spec: `rust_task::malloc` and the kernel `malloc`, for
a heap part of `sz` bytes: the null pointer when the allocation fails
(`mem = none`), else a fresh block whose bytes are not initialised; its
`data` array is what is left of the `sz` bytes after the `fill` word. -/
def heap_malloc (bits : Nat) (mem : Option (Nat → Nat)) (sz : Nat) : Option rust_ivec_heap :=
  mem.map fun g =>
    { fill := g 0, data := fresh_bytes (fun i => g (i + 1)) (sz - sizeof_size_t bits) }

/-- Modelled from the spec: `rust_task::realloc` and the kernel `realloc`
(section 4.5: grows the existing heap block in place or via relocation): the
null pointer when the allocation fails, else a block that keeps the fill
word and every data byte of the old one and is extended by bytes that are
not initialised up to the `sz` bytes asked for; a block that already holds
that much is kept as it is. -/
def heap_realloc (bits : Nat) (mem : Option (Nat → Nat)) (h : rust_ivec_heap) (sz : Nat) :
    Option rust_ivec_heap :=
  mem.map fun g =>
    { fill := h.fill,
      data := h.data ++ fresh_bytes (fun i => g (h.data.length + i))
        (sz - sizeof_size_t bits - h.data.length) }

/-- The source function `ivec_reserve`: `new_alloc = n_elems * ty->size` in
`size_t`; nothing to do when `new_alloc <= v->alloc`; else spill to a fresh
heap part when `v->fill || !v->payload.ptr`, or resize the heap part.
`none` is the store `heap_part->fill = v->fill` through a null `heap_part`. -/
def ivec_reserve (bits : Nat) (mem : Option (Nat → Nat)) (ty : type_desc) (v : rust_ivec)
    (n_elems : Nat) : Option rust_ivec :=
  let new_alloc := size_t_wrap bits (n_elems * ty.size)
  if new_alloc ≤ v.alloc then some v
  else if v.fill != 0 || v.payload_ptr.isNone then
    match heap_malloc bits mem (size_t_wrap bits (new_alloc + sizeof_size_t bits)) with
    | none => none
    | some heap_part =>
      some { v with
        fill := 0
        payload_ptr := some { fill := v.fill,
                              data := bytes_write heap_part.data (bytes_read v.payload_data v.fill) }
        alloc := new_alloc }
  else
    some { v with
      payload_ptr := v.payload_ptr.bind fun h =>
        heap_realloc bits mem h (size_t_wrap bits (new_alloc + sizeof_size_t bits))
      alloc := new_alloc }

/-- The source function `ivec_reserve_shared`: the text of `ivec_reserve`
with the allocator of the kernel in place of the allocator of the task. -/
def ivec_reserve_shared (bits : Nat) (mem : Option (Nat → Nat)) (ty : type_desc) (v : rust_ivec)
    (n_elems : Nat) : Option rust_ivec :=
  let new_alloc := size_t_wrap bits (n_elems * ty.size)
  if new_alloc ≤ v.alloc then some v
  else if v.fill != 0 || v.payload_ptr.isNone then
    match heap_malloc bits mem (size_t_wrap bits (new_alloc + sizeof_size_t bits)) with
    | none => none
    | some heap_part =>
      some { v with
        fill := 0
        payload_ptr := some { fill := v.fill,
                              data := bytes_write heap_part.data (bytes_read v.payload_data v.fill) }
        alloc := new_alloc }
  else
    some { v with
      payload_ptr := v.payload_ptr.bind fun h =>
        heap_realloc bits mem h (size_t_wrap bits (new_alloc + sizeof_size_t bits))
      alloc := new_alloc }

/-- The source function `ivec_on_heap`: `!v->fill && v->payload.ptr`. -/
def ivec_on_heap (v : rust_ivec) : Bool :=
  v.fill == 0 && v.payload_ptr.isSome

/-- The address `ivec_to_ptr` returns: the inline bytes of the buffer, or
the `data` array of a heap block. -/
inductive ivec_data_ptr where
  | payload_data
  | heap_data (block : rust_ivec_heap)
deriving DecidableEq, Repr

/-- The source function `ivec_to_ptr`:
`v->fill ? v->payload.data : v->payload.ptr->data`. `none` is the member
access `v->payload.ptr->data` through a null `payload.ptr`. -/
def ivec_to_ptr (v : rust_ivec) : Option ivec_data_ptr :=
  if v.fill != 0 then some ivec_data_ptr.payload_data
  else v.payload_ptr.map ivec_data_ptr.heap_data

/-- The source function `get_ivec_size`. -/
def get_ivec_size (v : rust_ivec) : Nat :=
  if v.fill != 0 then v.fill
  else match v.payload_ptr with
    | some h => h.fill
    | none => 0

/-- The source function `ivec_copy_from_buf`. The source bytes are read from
raw memory at `ptr`; `none` is the null store of `ivec_reserve`. -/
def ivec_copy_from_buf (bits : Nat) (mem : Option (Nat → Nat)) (w : World) (task : Nat)
    (ty : type_desc) (v : rust_ivec) (ptr count : Nat) : Option (World × rust_ivec) :=
  let old_size := get_ivec_size v
  if old_size != 0 then some (rust_task_fail w task, v)
  else
    match ivec_reserve bits mem ty v count with
    | none => none
    | some v =>
      let new_size := size_t_wrap bits (count * ty.size)
      if v.fill != 0 || v.payload_ptr.isNone then
        some (w, { v with
          payload_data := bytes_write v.payload_data (mem_read w.mem ptr new_size)
          fill := new_size })
      else
        some (w, { v with
          payload_ptr := v.payload_ptr.map fun h =>
            { data := bytes_write h.data (mem_read w.mem ptr new_size), fill := new_size } })

/-- The source function `ivec_copy_from_buf_shared`: the text of
`ivec_copy_from_buf` with `ivec_reserve_shared` in place of `ivec_reserve`. -/
def ivec_copy_from_buf_shared (bits : Nat) (mem : Option (Nat → Nat)) (w : World) (task : Nat)
    (ty : type_desc) (v : rust_ivec) (ptr count : Nat) : Option (World × rust_ivec) :=
  let old_size := get_ivec_size v
  if old_size != 0 then some (rust_task_fail w task, v)
  else
    match ivec_reserve_shared bits mem ty v count with
    | none => none
    | some v =>
      let new_size := size_t_wrap bits (count * ty.size)
      if v.fill != 0 || v.payload_ptr.isNone then
        some (w, { v with
          payload_data := bytes_write v.payload_data (mem_read w.mem ptr new_size)
          fill := new_size })
      else
        some (w, { v with
          payload_ptr := v.payload_ptr.map fun h =>
            { data := bytes_write h.data (mem_read w.mem ptr new_size), fill := new_size } })

/-! ## Task and messaging builtins -/

/-- The source function `task_join`. The result is the world when the call
returns and the returned `intptr_t`. -/
def task_join (sched : World → World) (w : World) (task : Nat) (tid : rust_task_id) :
    World × Int :=
  match get_task_by_id w tid with
  | none => (w, 0)
  | some join_task =>
    let w := w.emit (Event.lock (rust_cond.task join_task))
    let w :=
      if rust_task_dead w join_task == false then
        let w := (w.set_task join_task
          { w.tasks join_task with
            tasks_waiting_to_join := (w.tasks join_task).tasks_waiting_to_join ++ [task] }).emit
          (Event.join_push join_task task)
        let w := rust_task_block w task (rust_cond.task join_task) "joining local task"
        let w := w.emit (Event.unlock (rust_cond.task join_task))
        rust_task_yield sched w task 2
      else
        w.emit (Event.unlock (rust_cond.task join_task))
    if !(w.tasks join_task).failed then (w, 0) else (w, -1)

/-- The source function `chan_id_send`. -/
def chan_id_send (w : World) (_task : Nat) (_t : type_desc) (target_task_id : rust_task_id)
    (target_port_id : rust_port_id) (sptr : Nat) : World :=
  match get_task_by_id w target_task_id with
  | some target_task =>
    match get_port_by_id w target_task target_port_id with
    | some port => rust_chan_send w (w.ports port).remote_chan sptr
    | none => w
  | none => w

/-- The source function `port_recv`. The scoped lock on the port is taken on
entry of the block and released when the block is left, by the `return` or
at its end. -/
def port_recv (sched : World → World) (w : World) (task dptr port : Nat) : World :=
  let w := w.emit (Event.lock (rust_cond.port port))
  let r := rust_port_receive w port dptr
  if r.2 then
    r.1.emit (Event.unlock (rust_cond.port port))
  else
    let w := r.1
    let w := (w.set_task task { w.tasks task with rendezvous_ptr := dptr }).emit
      (Event.rendezvous task dptr)
    let w := rust_task_block w task (rust_cond.port port) "waiting for rendezvous data"
    let w := w.emit (Event.unlock (rust_cond.port port))
    rust_task_yield sched w task 3

/-! ## Sequences of reserve calls -/

/-- One call of `ivec_reserve` or `ivec_reserve_shared` on a buffer: the
variant, the outcome of its allocator, the type descriptor and the count. -/
structure reserve_call where
  shared : Bool
  mem : Option (Nat → Nat)
  ty : type_desc
  n_elems : Nat

/-- The byte size a call computes: `n_elems * ty->size` in `size_t`. -/
def reserve_call.request (bits : Nat) (c : reserve_call) : Nat :=
  size_t_wrap bits (c.n_elems * c.ty.size)

/-- Performs one call of the sequence on the buffer. -/
def reserve_step (bits : Nat) (c : reserve_call) (v : rust_ivec) : Option rust_ivec :=
  if c.shared then ivec_reserve_shared bits c.mem c.ty v c.n_elems
  else ivec_reserve bits c.mem c.ty v c.n_elems

/-- Performs the calls of the sequence on the buffer, first to last; a null
store in one of them ends the run. -/
def reserve_seq (bits : Nat) : List reserve_call → rust_ivec → Option rust_ivec
  | [], v => some v
  | c :: cs, v => (reserve_step bits c v).bind (reserve_seq bits cs)

/-- The storage a reader of the buffer resolves to: the heap block data when
`ivec_on_heap` holds, the inline data otherwise. -/
def ivec_active_data (v : rust_ivec) : List Nat :=
  if ivec_on_heap v then
    match v.payload_ptr with
    | some h => h.data
    | none => []
  else v.payload_data

/-! ## Order of the events of a call around a lock -/

/-- Where a call stands with respect to a lock: not yet acquired, held, or
released. -/
inductive lock_phase where
  | before
  | held
  | released
deriving DecidableEq, Repr

/-- Checks the events of a call, in order, against the lock of the port at
address `port`: the lock is acquired once and then released; a receive, a
write of the rendezvous pointer and a block occur only while it is held; a
yield occurs only after it has been released; the call ends with the lock
released. Locks of other objects and other events are passed over. -/
def lock_order (port : Nat) : lock_phase → List Event → Bool
  | ph, [] => decide (ph = lock_phase.released)
  | ph, Event.lock c :: es =>
    if c = rust_cond.port port then
      decide (ph = lock_phase.before) && lock_order port lock_phase.held es
    else lock_order port ph es
  | ph, Event.unlock c :: es =>
    if c = rust_cond.port port then
      decide (ph = lock_phase.held) && lock_order port lock_phase.released es
    else lock_order port ph es
  | ph, Event.receive _ _ _ :: es => decide (ph = lock_phase.held) && lock_order port ph es
  | ph, Event.rendezvous _ _ :: es => decide (ph = lock_phase.held) && lock_order port ph es
  | ph, Event.block _ _ :: es => decide (ph = lock_phase.held) && lock_order port ph es
  | ph, Event.yield _ _ :: es => decide (ph = lock_phase.released) && lock_order port ph es
  | ph, Event.join_push _ _ :: es => lock_order port ph es
  | ph, Event.send _ _ :: es => lock_order port ph es
  | ph, Event.fail _ :: es => lock_order port ph es

/-! ## Sample states -/

/-- A runnable task of identity `id`, not failed, with no joiners, no pending
rendezvous and no ports. -/
def sample_task (id : rust_task_id) : rust_task :=
  { id := id, state := task_state.runnable, failed := false,
    tasks_waiting_to_join := [], rendezvous_ptr := 0, port_table := [] }

/-- A world with three registered tasks: identity 1 at address 10, live,
which owns port 7 at address 20; identity 2 at address 11, dead and failed;
identity 3 at address 12, dead and not failed. -/
def sample_world : World :=
  { task_table := [(1, 10), (2, 11), (3, 12)]
    tasks := fun p =>
      if p = 10 then { sample_task 1 with port_table := [(7, 20)] }
      else if p = 11 then { sample_task 2 with state := task_state.dead, failed := true }
      else if p = 12 then { sample_task 3 with state := task_state.dead }
      else sample_task 0
    ports := fun _ => { id := 7, task := 10, unit_sz := 2, chans := [], remote_chan := 30,
                        ref_count := 1 }
    chans := fun _ => { ref_count := 1, port := 20, unit_sz := 2, buffer := [] }
    mem := fun a => a % 256
    log := [] }

/-- An inline buffer holding the three bytes 1, 2, 3 with capacity 4. -/
def sample_inline : rust_ivec :=
  { fill := 3, alloc := 4, payload_data := [1, 2, 3, 0], payload_ptr := none }

/-- The empty inline buffer of capacity 4: fill 0 and a null heap pointer. -/
def sample_empty : rust_ivec :=
  { fill := 0, alloc := 4, payload_data := [0, 0, 0, 0], payload_ptr := none }

/-- A spilled buffer: capacity 8, heap block holding the bytes 5, 6. -/
def sample_spilled : rust_ivec :=
  { fill := 0, alloc := 8, payload_data := [0, 0, 0, 0],
    payload_ptr := some { fill := 2, data := [5, 6, 0, 0, 0, 0, 0, 0] } }

/-- A type descriptor of element size 2. -/
def sample_ty : type_desc := { size := 2, align := 2, is_stateful := false }

/-- Three calls with a successful allocator: one element, five elements
through the shared variant, eight elements, all of size 2. -/
def sample_calls : List reserve_call :=
  [ { shared := false, mem := some fun _ => 0, ty := sample_ty, n_elems := 1 },
    { shared := true, mem := some fun _ => 0, ty := sample_ty, n_elems := 5 },
    { shared := false, mem := some fun _ => 0, ty := sample_ty, n_elems := 8 } ]

/-- The sample world with one message, the bytes 8 and 9, buffered on
channel 30 of port 20. -/
def sample_world_buffered : World :=
  { sample_world with
    ports := fun _ => { id := 7, task := 10, unit_sz := 2, chans := [30], remote_chan := 30,
                        ref_count := 1 }
    chans := fun _ => { ref_count := 1, port := 20, unit_sz := 2, buffer := [[8, 9]] } }

/-- A scheduler under which, while the caller is suspended, the task at
address 10 dies with its failed flag set. -/
def sample_sched (w : World) : World :=
  rust_task_fail w 10

/-- An empty spilled buffer: capacity 8, heap block of fill 0. -/
def sample_spilled_empty : rust_ivec :=
  { fill := 0, alloc := 8, payload_data := [0, 0, 0, 0],
    payload_ptr := some { fill := 0, data := [0, 0, 0, 0, 0, 0, 0, 0] } }

/-! ## Auxiliary facts -/

theorem ivec_reserve_shared_eq (bits : Nat) (mem : Option (Nat → Nat)) (ty : type_desc)
    (v : rust_ivec) (n : Nat) :
    ivec_reserve_shared bits mem ty v n = ivec_reserve bits mem ty v n := rfl

theorem ivec_copy_from_buf_shared_eq (bits : Nat) (mem : Option (Nat → Nat)) (w : World)
    (task : Nat) (ty : type_desc) (v : rust_ivec) (ptr count : Nat) :
    ivec_copy_from_buf_shared bits mem w task ty v ptr count
      = ivec_copy_from_buf bits mem w task ty v ptr count := rfl

theorem wakeup_log (w : World) (p : Nat) : (rust_task_wakeup w p).log = w.log := by
  unfold rust_task_wakeup
  split <;> rfl

theorem wakeup_failed (w : World) (p q : Nat) :
    ((rust_task_wakeup w p).tasks q).failed = (w.tasks q).failed := by
  unfold rust_task_wakeup
  split
  · by_cases h : q = p <;> simp [World.set_task, h]
  · rfl

theorem wakeup_dead (w : World) (p q : Nat) (h : (w.tasks q).state = task_state.dead) :
    ((rust_task_wakeup w p).tasks q).state = task_state.dead := by
  unfold rust_task_wakeup
  split
  · next c r hs =>
    by_cases hq : q = p
    · subst hq; rw [h] at hs; cases hs
    · simp [World.set_task, hq, h]
  · exact h

theorem wakeup_all_log (l : List Nat) (w : World) :
    (l.foldl rust_task_wakeup w).log = w.log := by
  induction l generalizing w with
  | nil => rfl
  | cons p ps ih => simp [List.foldl, ih, wakeup_log]

theorem wakeup_all_failed (l : List Nat) (w : World) (q : Nat) :
    ((l.foldl rust_task_wakeup w).tasks q).failed = (w.tasks q).failed := by
  induction l generalizing w with
  | nil => rfl
  | cons p ps ih => simp [List.foldl, ih, wakeup_failed]

theorem wakeup_all_dead (l : List Nat) (w : World) (q : Nat)
    (h : (w.tasks q).state = task_state.dead) :
    ((l.foldl rust_task_wakeup w).tasks q).state = task_state.dead := by
  induction l generalizing w with
  | nil => exact h
  | cons p ps ih => exact ih _ (wakeup_dead w p q h)

theorem fail_sets_failed (w : World) (task : Nat) :
    ((rust_task_fail w task).tasks task).failed = true
      ∧ ((rust_task_fail w task).tasks task).state = task_state.dead
      ∧ (rust_task_fail w task).log = w.log ++ [Event.fail task] := by
  unfold rust_task_fail
  refine ⟨?_, ?_, ?_⟩
  · rw [wakeup_all_failed]; simp [World.emit, World.set_task]
  · apply wakeup_all_dead; simp [World.emit, World.set_task]
  · rw [wakeup_all_log]; simp [World.emit, World.set_task]

/-! ## Claims on interior vectors -/

/-- C1: for a buffer whose `get_ivec_size` is nonzero, `ivec_copy_from_buf`
and `ivec_copy_from_buf_shared` fail the calling task (it is dead with its
failed flag set, and the only event added is that failure) and return the
buffer as it was, whatever the allocator, the source pointer and the count:
no reserve and no copy takes place. -/
theorem copy_from_buf_nonempty_fails (bits : Nat) (mem : Option (Nat → Nat)) (w : World)
    (task : Nat) (ty : type_desc) (v : rust_ivec) (ptr count : Nat)
    (h : get_ivec_size v ≠ 0) :
    ivec_copy_from_buf bits mem w task ty v ptr count = some (rust_task_fail w task, v)
      ∧ ivec_copy_from_buf_shared bits mem w task ty v ptr count
          = some (rust_task_fail w task, v)
      ∧ ((rust_task_fail w task).tasks task).failed = true
      ∧ ((rust_task_fail w task).tasks task).state = task_state.dead
      ∧ (rust_task_fail w task).log = w.log ++ [Event.fail task] := by
  have hc : ivec_copy_from_buf bits mem w task ty v ptr count
      = some (rust_task_fail w task, v) := by
    unfold ivec_copy_from_buf
    simp [h]
  exact ⟨hc, by rw [ivec_copy_from_buf_shared_eq]; exact hc, fail_sets_failed w task⟩

/-- Witness of C1 on the inline buffer holding three bytes. -/
theorem copy_from_buf_nonempty_fails_witness :
    get_ivec_size sample_inline ≠ 0
      ∧ ivec_copy_from_buf 64 none sample_world 10 sample_ty sample_inline 100 5
          = some (rust_task_fail sample_world 10, sample_inline) :=
  ⟨by decide,
   (copy_from_buf_nonempty_fails 64 none sample_world 10 sample_ty sample_inline 100 5
      (by decide)).1⟩

theorem size_t_wrap_le (bits x : Nat) : size_t_wrap bits x ≤ x :=
  Nat.mod_le x (2 ^ bits)

theorem size_t_wrap_of_lt (bits x : Nat) (h : x < 2 ^ bits) : size_t_wrap bits x = x :=
  Nat.mod_eq_of_lt h

/-- What a call of `ivec_reserve` with a successful allocator does, by case:
nothing when the wrapped request fits the capacity, else the capacity
becomes the wrapped request, the inline fill is 0 and a heap block is
attached that carries the size the buffer had. -/
theorem ivec_reserve_cases (bits : Nat) (g : Nat → Nat) (ty : type_desc) (v : rust_ivec)
    (n : Nat) :
    (size_t_wrap bits (n * ty.size) ≤ v.alloc ∧ ivec_reserve bits (some g) ty v n = some v)
      ∨ (v.alloc < size_t_wrap bits (n * ty.size)
          ∧ ∃ v' h, ivec_reserve bits (some g) ty v n = some v'
              ∧ v'.alloc = size_t_wrap bits (n * ty.size)
              ∧ v'.fill = 0 ∧ v'.payload_ptr = some h ∧ h.fill = get_ivec_size v
              ∧ v'.payload_data = v.payload_data) := by
  by_cases hle : size_t_wrap bits (n * ty.size) ≤ v.alloc
  · left
    exact ⟨hle, by simp [ivec_reserve, hle]⟩
  · right
    refine ⟨Nat.lt_of_not_le hle, ?_⟩
    by_cases hf : v.fill = 0
    · cases hp : v.payload_ptr with
      | none =>
        simp [ivec_reserve, hle, hf, hp, heap_malloc, get_ivec_size]
      | some h0 =>
        simp [ivec_reserve, hle, hf, hp, heap_realloc, get_ivec_size]
    · simp [ivec_reserve, hle, hf, heap_malloc, get_ivec_size]

/-- C2 (as amended): with a successful allocator `ivec_reserve` and
`ivec_reserve_shared` return, and the capacity `alloc` of the result is at
least `n * ty.size` reduced to a `size_t`; it is at least the mathematical
product whenever that product is below `2 ^ bits`; and when the product, or
only its reduction, was within the capacity before the call, the buffer is
returned unchanged. -/
theorem ivec_reserve_capacity (bits : Nat) (g : Nat → Nat) (ty : type_desc) (v : rust_ivec)
    (n : Nat) :
    ∃ v', ivec_reserve bits (some g) ty v n = some v'
      ∧ ivec_reserve_shared bits (some g) ty v n = some v'
      ∧ size_t_wrap bits (n * ty.size) ≤ v'.alloc
      ∧ (n * ty.size < 2 ^ bits → n * ty.size ≤ v'.alloc)
      ∧ (size_t_wrap bits (n * ty.size) ≤ v.alloc → v' = v)
      ∧ (n * ty.size ≤ v.alloc → v' = v) := by
  rcases ivec_reserve_cases bits g ty v n with ⟨hle, hr⟩ | ⟨hlt, v', h, hr, ha, -⟩
  · refine ⟨v, hr, by rw [ivec_reserve_shared_eq]; exact hr, hle, ?_, fun _ => rfl,
      fun _ => rfl⟩
    intro hb
    rw [size_t_wrap_of_lt bits _ hb] at hle
    exact hle
  · refine ⟨v', hr, by rw [ivec_reserve_shared_eq]; exact hr, by rw [ha], ?_, ?_, ?_⟩
    · intro hb
      rw [ha, size_t_wrap_of_lt bits _ hb]
    · intro hle
      exact absurd hle (Nat.not_le_of_lt hlt)
    · intro hle
      exact absurd (Nat.le_trans (size_t_wrap_le bits _) hle) (Nat.not_le_of_lt hlt)

/-- Witness of C2 (as amended): three elements of size 2 reserved in the
empty inline buffer of capacity 4, on a 64-bit target. -/
theorem ivec_reserve_capacity_witness :
    ∃ v', ivec_reserve 64 (some fun _ => 0) sample_ty sample_empty 3 = some v'
      ∧ 3 * sample_ty.size ≤ v'.alloc := by
  obtain ⟨v', h1, -, -, h4, -⟩ :=
    ivec_reserve_capacity 64 (fun _ => 0) sample_ty sample_empty 3
  exact ⟨v', h1, h4 (by decide)⟩

/-- C2 (counterexample): on a 64-bit target, a request of `2 ^ 63` elements
of size 2 on the empty inline buffer of capacity 4 returns, the allocator
being ready to succeed, with the buffer unchanged: its capacity 4 is below
the mathematical product `2 ^ 64`. -/
theorem ivec_reserve_capacity_overflow :
    ivec_reserve 64 (some fun _ => 0) sample_ty sample_empty (2 ^ 63) = some sample_empty
      ∧ ¬ (2 ^ 63 * sample_ty.size ≤ sample_empty.alloc) := by
  constructor
  · decide
  · decide

/-- One call of `ivec_reserve`, whatever its allocator does, keeps the
reported size within the capacity when it returns. -/
theorem ivec_reserve_keeps_bound (bits : Nat) (mem : Option (Nat → Nat)) (ty : type_desc)
    (v v' : rust_ivec) (n : Nat) (hr : ivec_reserve bits mem ty v n = some v')
    (h : get_ivec_size v ≤ v.alloc) : get_ivec_size v' ≤ v'.alloc := by
  by_cases hle : size_t_wrap bits (n * ty.size) ≤ v.alloc
  · simp [ivec_reserve, hle] at hr
    subst hr
    exact h
  · have hlt := Nat.lt_of_not_le hle
    cases mem with
    | some g =>
      rcases ivec_reserve_cases bits g ty v n with ⟨hle', -⟩ | ⟨-, w, hp, hw, ha, hf, hpp, hs, -⟩
      · exact absurd hle' hle
      · rw [hr] at hw
        cases hw
        have : get_ivec_size v' = get_ivec_size v := by
          simp [get_ivec_size, hf, hpp, hs]
        omega
    | none =>
      by_cases hf : v.fill = 0
      · cases hp : v.payload_ptr with
        | none => simp [ivec_reserve, hle, hf, hp, heap_malloc] at hr
        | some h0 =>
          simp [ivec_reserve, hle, hf, hp, heap_realloc] at hr
          subst hr
          simp [get_ivec_size, hf]
      · simp [ivec_reserve, hle, hf, heap_malloc] at hr

theorem reserve_step_keeps_bound (bits : Nat) (c : reserve_call) (v v' : rust_ivec)
    (hr : reserve_step bits c v = some v') (h : get_ivec_size v ≤ v.alloc) :
    get_ivec_size v' ≤ v'.alloc := by
  unfold reserve_step at hr
  split at hr
  · rw [ivec_reserve_shared_eq] at hr
    exact ivec_reserve_keeps_bound bits c.mem c.ty v v' c.n_elems hr h
  · exact ivec_reserve_keeps_bound bits c.mem c.ty v v' c.n_elems hr h

theorem reserve_step_returns (bits : Nat) (c : reserve_call) (v : rust_ivec)
    (hm : c.mem.isSome = true) : ∃ v', reserve_step bits c v = some v' := by
  obtain ⟨g, hg⟩ := Option.isSome_iff_exists.mp hm
  have hstep : reserve_step bits c v = ivec_reserve bits (some g) c.ty v c.n_elems := by
    unfold reserve_step
    split
    · rw [ivec_reserve_shared_eq, hg]
    · rw [hg]
  rcases ivec_reserve_cases bits g c.ty v c.n_elems with ⟨-, hr⟩ | ⟨-, v', -, hr, -⟩
  · exact ⟨v, by rw [hstep]; exact hr⟩
  · exact ⟨v', by rw [hstep]; exact hr⟩

/-- C3: fill within capacity is an invariant of reserve. From a buffer whose
reported size (`get_ivec_size`) is at most its capacity (`alloc`), every
sequence of `ivec_reserve` and `ivec_reserve_shared` calls, of any element
sizes and counts, that returns leaves a buffer whose reported size is at
most its capacity (whatever the allocators do); and the sequence does return
when its allocations succeed. -/
theorem reserve_seq_fill_within_capacity (bits : Nat) (calls : List reserve_call)
    (v : rust_ivec) (h : get_ivec_size v ≤ v.alloc) :
    (∀ v', reserve_seq bits calls v = some v' → get_ivec_size v' ≤ v'.alloc)
      ∧ ((∀ c ∈ calls, c.mem.isSome = true) → ∃ v', reserve_seq bits calls v = some v') := by
  induction calls generalizing v with
  | nil =>
    refine ⟨?_, fun _ => ⟨v, rfl⟩⟩
    intro v' hv
    simp [reserve_seq] at hv
    subst hv
    exact h
  | cons c cs ih =>
    constructor
    · intro v' hv
      simp only [reserve_seq] at hv
      cases hs : reserve_step bits c v with
      | none => simp [hs] at hv
      | some v1 =>
        rw [hs] at hv
        exact (ih v1 (reserve_step_keeps_bound bits c v v1 hs h)).1 v' hv
    · intro hall
      obtain ⟨v1, hs⟩ := reserve_step_returns bits c v (hall c (List.mem_cons_self c cs))
      obtain ⟨v', hv⟩ := (ih v1 (reserve_step_keeps_bound bits c v v1 hs h)).2
        (fun d hd => hall d (List.mem_cons_of_mem c hd))
      exact ⟨v', by simp [reserve_seq, hs, hv]⟩

/-- Witness of C3: the three sample calls on the inline buffer of three bytes. -/
theorem reserve_seq_fill_within_capacity_witness :
    get_ivec_size sample_inline ≤ sample_inline.alloc
      ∧ ∃ v', reserve_seq 64 sample_calls sample_inline = some v'
          ∧ get_ivec_size v' ≤ v'.alloc :=
  ⟨by decide,
   Exists.elim
    ((reserve_seq_fill_within_capacity 64 sample_calls sample_inline (by decide)).2
      (by simp [sample_calls]))
    (fun v' hv => ⟨v', hv,
      (reserve_seq_fill_within_capacity 64 sample_calls sample_inline (by decide)).1 v' hv⟩)⟩

theorem reserve_step_cases (bits : Nat) (c : reserve_call) (v : rust_ivec)
    (hm : c.mem.isSome = true) :
    (c.request bits ≤ v.alloc ∧ reserve_step bits c v = some v)
      ∨ (v.alloc < c.request bits
          ∧ ∃ v', reserve_step bits c v = some v' ∧ ivec_on_heap v' = true) := by
  obtain ⟨g, hg⟩ := Option.isSome_iff_exists.mp hm
  have hstep : reserve_step bits c v = ivec_reserve bits (some g) c.ty v c.n_elems := by
    unfold reserve_step
    split
    · rw [ivec_reserve_shared_eq, hg]
    · rw [hg]
  rcases ivec_reserve_cases bits g c.ty v c.n_elems with
    ⟨hle, hr⟩ | ⟨hlt, v', h, hr, -, hf, hp, -, -⟩
  · left
    exact ⟨hle, by rw [hstep]; exact hr⟩
  · right
    exact ⟨hlt, v', by rw [hstep]; exact hr, by simp [ivec_on_heap, hf, hp]⟩

theorem reserve_seq_append (bits : Nat) (a b : List reserve_call) (v : rust_ivec) :
    reserve_seq bits (a ++ b) v = (reserve_seq bits a v).bind (reserve_seq bits b) := by
  induction a generalizing v with
  | nil => simp [reserve_seq]
  | cons c cs ih =>
    simp only [List.cons_append, reserve_seq]
    cases reserve_step bits c v with
    | none => rfl
    | some v1 => simp [ih]

theorem reserve_seq_within_capacity (bits : Nat) (calls : List reserve_call) (v : rust_ivec)
    (hm : ∀ d ∈ calls, d.mem.isSome = true) (hq : ∀ d ∈ calls, d.request bits ≤ v.alloc) :
    reserve_seq bits calls v = some v := by
  induction calls with
  | nil => rfl
  | cons c cs ih =>
    have hc := hq c (List.mem_cons_self c cs)
    rcases reserve_step_cases bits c v (hm c (List.mem_cons_self c cs)) with
      ⟨-, hr⟩ | ⟨hlt, -⟩
    · simp only [reserve_seq, hr, Option.some_bind]
      exact ih (fun d hd => hm d (List.mem_cons_of_mem c hd))
        (fun d hd => hq d (List.mem_cons_of_mem c hd))
    · omega

theorem reserve_seq_stays_on_heap (bits : Nat) (calls : List reserve_call) (v : rust_ivec)
    (hm : ∀ d ∈ calls, d.mem.isSome = true) (hv : ivec_on_heap v = true) :
    ∃ v', reserve_seq bits calls v = some v' ∧ ivec_on_heap v' = true := by
  induction calls generalizing v with
  | nil => exact ⟨v, rfl, hv⟩
  | cons c cs ih =>
    have hcs : ∀ d ∈ cs, d.mem.isSome = true := fun d hd => hm d (List.mem_cons_of_mem c hd)
    rcases reserve_step_cases bits c v (hm c (List.mem_cons_self c cs)) with
      ⟨-, hr⟩ | ⟨-, v1, hr, h1⟩
    · obtain ⟨v', h', ho⟩ := ih v hcs hv
      exact ⟨v', by simp [reserve_seq, hr, h'], ho⟩
    · obtain ⟨v', h', ho⟩ := ih v1 hcs h1
      exact ⟨v', by simp [reserve_seq, hr, h'], ho⟩

/-- C4 (as amended): with a successful allocator, a call of `ivec_reserve`
returns; a buffer that `ivec_on_heap` reports on the heap before the call is
on the heap after it; one that is not on the heap before the call is on the
heap after it exactly when `n_elems * ty.size`, reduced to a `size_t`,
exceeds the capacity before the call (the product itself when it is below
`2 ^ bits`). Over a sequence of reserve calls with successful allocators
from a buffer not on the heap: as long as no request exceeds the capacity
the buffer is returned as it was, and from the first request that exceeds
it on, every later state is on the heap. -/
theorem ivec_reserve_on_heap (bits : Nat) :
    (∀ (g : Nat → Nat) (ty : type_desc) (v : rust_ivec) (n : Nat),
      ∃ v', ivec_reserve bits (some g) ty v n = some v'
        ∧ (ivec_on_heap v = true → ivec_on_heap v' = true)
        ∧ (ivec_on_heap v = false →
            (ivec_on_heap v' = true ↔ v.alloc < size_t_wrap bits (n * ty.size)))
        ∧ (ivec_on_heap v = false → n * ty.size < 2 ^ bits →
            (ivec_on_heap v' = true ↔ v.alloc < n * ty.size)))
      ∧ (∀ (v : rust_ivec) (pre : List reserve_call) (c : reserve_call)
          (post : List reserve_call),
          ivec_on_heap v = false →
          (∀ d ∈ pre ++ c :: post, d.mem.isSome = true) →
          (∀ d ∈ pre, d.request bits ≤ v.alloc) →
          v.alloc < c.request bits →
          reserve_seq bits pre v = some v
            ∧ ∃ v', reserve_seq bits (pre ++ c :: post) v = some v'
                ∧ ivec_on_heap v' = true) := by
  constructor
  · intro g ty v n
    rcases ivec_reserve_cases bits g ty v n with ⟨hle, hr⟩ | ⟨hlt, v', h, hr, -, hf, hp, -, -⟩
    · refine ⟨v, hr, id, ?_, ?_⟩
      · intro hv
        rw [hv]
        constructor
        · intro hc; cases hc
        · intro hlt; omega
      · intro hv hb
        rw [hv]
        rw [size_t_wrap_of_lt bits _ hb] at hle
        constructor
        · intro hc; cases hc
        · intro hlt; omega
    · have ho : ivec_on_heap v' = true := by simp [ivec_on_heap, hf, hp]
      refine ⟨v', hr, fun _ => ho, fun _ => ⟨fun _ => hlt, fun _ => ho⟩, ?_⟩
      intro _ hb
      rw [size_t_wrap_of_lt bits _ hb] at hlt
      exact ⟨fun _ => hlt, fun _ => ho⟩
  · intro v pre c post _ hm hq hlt
    have hpre : reserve_seq bits pre v = some v :=
      reserve_seq_within_capacity bits pre v
        (fun d hd => hm d (List.mem_append_left _ hd)) hq
    refine ⟨hpre, ?_⟩
    have hc : c.mem.isSome = true :=
      hm c (List.mem_append_right _ (List.mem_cons_self c post))
    have hpost : ∀ d ∈ post, d.mem.isSome = true :=
      fun d hd => hm d (List.mem_append_right _ (List.mem_cons_of_mem c hd))
    rcases reserve_step_cases bits c v hc with ⟨hle, -⟩ | ⟨-, v1, hr, h1⟩
    · omega
    · obtain ⟨v', h', ho⟩ := reserve_seq_stays_on_heap bits post v1 hpost h1
      refine ⟨v', ?_, ho⟩
      rw [reserve_seq_append, hpre]
      simp [reserve_seq, hr, h']

/-- Witness of C4 (as amended): on the inline buffer of capacity 4, the
first sample call asks for 2 bytes and the second for 10. -/
theorem ivec_reserve_on_heap_witness :
    ivec_on_heap sample_inline = false
      ∧ reserve_seq 64 (sample_calls.take 1) sample_inline = some sample_inline
      ∧ ∃ v', reserve_seq 64 sample_calls sample_inline = some v'
          ∧ ivec_on_heap v' = true :=
  ⟨by decide,
   (ivec_reserve_on_heap 64).2 sample_inline (sample_calls.take 1)
     { shared := true, mem := some fun _ => 0, ty := sample_ty, n_elems := 5 }
     (sample_calls.drop 2) (by decide) (by simp [sample_calls])
     (by simp [sample_calls, reserve_call.request, size_t_wrap, sample_ty, sample_inline])
     (by simp [reserve_call.request, size_t_wrap, sample_ty, sample_inline])⟩

/-- C4 (counterexample): on a 64-bit target the empty inline buffer of
capacity 4 is not on the heap, the request of `2 ^ 63` elements of size 2
exceeds its capacity as a product, and after the call, the allocator being
ready to succeed, the buffer is still not on the heap. -/
theorem ivec_reserve_on_heap_overflow :
    ivec_on_heap sample_empty = false
      ∧ sample_empty.alloc < 2 ^ 63 * sample_ty.size
      ∧ ∃ v', ivec_reserve 64 (some fun _ => 0) sample_ty sample_empty (2 ^ 63) = some v'
          ∧ ivec_on_heap v' = false :=
  ⟨by decide, by decide, sample_empty, by decide, by decide⟩

theorem mem_read_length (m : Nat → Nat) (p n : Nat) : (mem_read m p n).length = n := by
  simp [mem_read]

theorem bytes_write_take (dst bs : List Nat) (n : Nat) (h : bs.length = n) :
    (bytes_write dst bs).take n = bs := by
  subst h
  simp [bytes_write]

/-- The second half of `ivec_copy_from_buf`, after the reserve: on a buffer
with inline fill 0 the copy stores the source bytes in the active storage
and sets the reported size. -/
theorem copy_after_reserve (w : World) (v1 : rust_ivec) (ptr N : Nat) (hf : v1.fill = 0) :
    ∃ v', (if v1.fill != 0 || v1.payload_ptr.isNone then
            some (w, { v1 with
              payload_data := bytes_write v1.payload_data (mem_read w.mem ptr N)
              fill := N })
          else
            some (w, { v1 with
              payload_ptr := v1.payload_ptr.map fun h =>
                { data := bytes_write h.data (mem_read w.mem ptr N), fill := N } }))
          = some (w, v')
      ∧ get_ivec_size v' = N ∧ v'.alloc = v1.alloc
      ∧ (ivec_active_data v').take N = mem_read w.mem ptr N := by
  cases hp : v1.payload_ptr with
  | none =>
    refine ⟨{ v1 with
      payload_data := bytes_write v1.payload_data (mem_read w.mem ptr N)
      fill := N }, by simp [hf, hp], ?_, rfl, ?_⟩
    · by_cases hN : N = 0 <;> simp [get_ivec_size, hN, hp]
    · simp only [ivec_active_data, ivec_on_heap, hp, Option.isSome_none, Bool.and_false]
      exact bytes_write_take _ _ _ (mem_read_length _ _ _)
  | some h0 =>
    refine ⟨{ v1 with
      payload_ptr := some { data := bytes_write h0.data (mem_read w.mem ptr N), fill := N } },
      by simp [hf, hp], ?_, rfl, ?_⟩
    · simp [get_ivec_size, hf]
    · simp only [ivec_active_data, ivec_on_heap, hf, Option.isSome_some,
        beq_self_eq_true, Bool.and_self, if_true]
      exact bytes_write_take _ _ _ (mem_read_length _ _ _)

/-- A call of `ivec_reserve` whose wrapped request is within the capacity
returns the buffer as it is and consults no allocator. -/
theorem ivec_reserve_within (bits : Nat) (mem : Option (Nat → Nat)) (ty : type_desc)
    (v : rust_ivec) (n : Nat) (hle : size_t_wrap bits (n * ty.size) ≤ v.alloc) :
    ivec_reserve bits mem ty v n = some v := by
  simp [ivec_reserve, hle]

/-- C5 (as amended): on an empty buffer (`get_ivec_size` is 0: inline with
no heap block, or spilled with heap fill 0), for every type descriptor,
count and source address whose region of `count * ty.size` bytes exists
(its size is below `2 ^ bits`), when the allocation that the call makes if
`count * ty.size` exceeds the capacity succeeds, `ivec_copy_from_buf` and
`ivec_copy_from_buf_shared` return without failing the task (the world is
returned as it was) and leave a buffer whose reported size is
`count * ty.size`, whose capacity is at least that, and whose active
storage starts with exactly the source bytes in order. -/
theorem copy_from_buf_empty (bits : Nat) (mem : Option (Nat → Nat)) (w : World) (task : Nat)
    (ty : type_desc) (v : rust_ivec) (ptr count : Nat)
    (hempty : get_ivec_size v = 0) (hregion : count * ty.size < 2 ^ bits)
    (halloc : v.alloc < count * ty.size → mem.isSome = true) :
    ∃ v', ivec_copy_from_buf bits mem w task ty v ptr count = some (w, v')
      ∧ ivec_copy_from_buf_shared bits mem w task ty v ptr count = some (w, v')
      ∧ get_ivec_size v' = count * ty.size
      ∧ count * ty.size ≤ v'.alloc
      ∧ (ivec_active_data v').take (count * ty.size) = mem_read w.mem ptr (count * ty.size) := by
  have hw : size_t_wrap bits (count * ty.size) = count * ty.size :=
    size_t_wrap_of_lt bits _ hregion
  have hf : v.fill = 0 := by
    by_contra hne
    simp [get_ivec_size, hne] at hempty
  obtain ⟨v1, hr, hf1, ha1⟩ : ∃ v1, ivec_reserve bits mem ty v count = some v1
      ∧ v1.fill = 0 ∧ count * ty.size ≤ v1.alloc := by
    by_cases hfit : count * ty.size ≤ v.alloc
    · exact ⟨v, ivec_reserve_within bits mem ty v count (by rw [hw]; exact hfit), hf, hfit⟩
    · obtain ⟨g, hg⟩ := Option.isSome_iff_exists.mp (halloc (Nat.lt_of_not_le hfit))
      subst hg
      rcases ivec_reserve_cases bits g ty v count with
        ⟨hle, hr⟩ | ⟨-, v1, h, hr, ha, hf1, -, -, -⟩
      · exact ⟨v, hr, hf, by rw [hw] at hle; exact hle⟩
      · exact ⟨v1, hr, hf1, by rw [ha, hw]⟩
  obtain ⟨v', hc, hs, ha, hd⟩ := copy_after_reserve w v1 ptr (count * ty.size) hf1
  have hcopy : ivec_copy_from_buf bits mem w task ty v ptr count = some (w, v') := by
    simp only [ivec_copy_from_buf, hempty, hr, hw]
    exact hc
  exact ⟨v', hcopy, by rw [ivec_copy_from_buf_shared_eq]; exact hcopy, hs,
    by rw [ha]; exact ha1, hd⟩

/-- Witness of C5 (as amended), on a 64-bit target: five elements of size 2
copied from address 100 into the empty inline buffer of capacity 4, the
allocation succeeding; and two elements, which fit the capacity, copied
with an allocator that would return null. -/
theorem copy_from_buf_empty_witness :
    get_ivec_size sample_empty = 0 ∧ 5 * sample_ty.size < 2 ^ 64
      ∧ (∃ v', ivec_copy_from_buf 64 (some fun _ => 0) sample_world 10 sample_ty sample_empty
            100 5 = some (sample_world, v')
          ∧ get_ivec_size v' = 5 * sample_ty.size)
      ∧ (∃ v', ivec_copy_from_buf 64 none sample_world 10 sample_ty sample_empty
            100 2 = some (sample_world, v')
          ∧ get_ivec_size v' = 2 * sample_ty.size) :=
  ⟨by decide, by decide,
   Exists.elim
    (copy_from_buf_empty 64 (some fun _ => 0) sample_world 10 sample_ty sample_empty 100 5
      (by decide) (by decide) (by decide))
    (fun v' hv => ⟨v', hv.1, hv.2.2.1⟩),
   Exists.elim
    (copy_from_buf_empty 64 none sample_world 10 sample_ty sample_empty 100 2
      (by decide) (by decide) (by decide))
    (fun v' hv => ⟨v', hv.1, hv.2.2.1⟩)⟩

/-- C5 (counterexample): on a 64-bit target the empty inline buffer of
capacity 4 has reported size 0 and the source region of five elements of
size 2 is 10 bytes long; with a `malloc` that returns null both copy
variants end in the store through the null block of the reserve and leave
no buffer. -/
theorem copy_from_buf_empty_null_malloc :
    get_ivec_size sample_empty = 0
      ∧ 5 * sample_ty.size = 10
      ∧ ivec_copy_from_buf 64 none sample_world 10 sample_ty sample_empty 100 5 = none
      ∧ ivec_copy_from_buf_shared 64 none sample_world 10 sample_ty sample_empty 100 5 = none :=
  ⟨by decide, by decide, rfl, rfl⟩

/-- Where `ivec_to_ptr` agrees with the representation: a nonzero inline
fill resolves to the inline data, a buffer on the heap to the data of its
heap block. -/
theorem ivec_to_ptr_active (v : rust_ivec) :
    (v.fill ≠ 0 → ivec_on_heap v = false ∧ ivec_to_ptr v = some ivec_data_ptr.payload_data)
      ∧ (ivec_on_heap v = true →
          ∃ h, v.payload_ptr = some h ∧ ivec_to_ptr v = some (ivec_data_ptr.heap_data h)) := by
  constructor
  · intro hf
    simp [ivec_on_heap, ivec_to_ptr, hf]
  · intro ho
    simp only [ivec_on_heap, Bool.and_eq_true, beq_iff_eq] at ho
    obtain ⟨h, hh⟩ := Option.isSome_iff_exists.mp ho.2
    exact ⟨h, hh, by simp [ivec_to_ptr, ho.1, hh]⟩

/-- C6 (the code at the failing input): every empty inline buffer, fill 0
and a null heap pointer, is reported off the heap by `ivec_on_heap`, and
`ivec_to_ptr` does not return the address of its inline data: it goes
through the null heap pointer. The sample buffer is one of them. -/
theorem ivec_to_ptr_empty_inline :
    (∀ alloc data,
      ivec_on_heap { fill := 0, alloc := alloc, payload_data := data, payload_ptr := none }
          = false
        ∧ ivec_to_ptr { fill := 0, alloc := alloc, payload_data := data, payload_ptr := none }
          = none)
      ∧ ivec_on_heap sample_empty = false
      ∧ ivec_to_ptr sample_empty = none
      ∧ ivec_to_ptr sample_empty ≠ some ivec_data_ptr.payload_data :=
  ⟨fun _ _ => ⟨rfl, rfl⟩, rfl, rfl, by decide⟩

/-! ## Claims on tasks and messaging -/

theorem emit_tasks (w : World) (e : Event) : (w.emit e).tasks = w.tasks := rfl

theorem block_state (w : World) (task : Nat) (c : rust_cond) (r : String) :
    ((rust_task_block w task c r).tasks task).state = task_state.blocked c r := by
  simp [rust_task_block, World.emit, World.set_task]

/-- The shape of `task_join` on a registered target: the returned value is
read off the failed flag of the target in the returned world. -/
theorem task_join_registered (sched : World → World) (w : World) (task : Nat)
    (tid : rust_task_id) (join_task : Nat) (h : get_task_by_id w tid = some join_task) :
    ∃ w', task_join sched w task tid
      = (w', if (w'.tasks join_task).failed then (-1 : Int) else 0) := by
  unfold task_join
  rw [h]
  dsimp only
  generalize (if rust_task_dead (w.emit (Event.lock (rust_cond.task join_task))) join_task
      == false then _ else _) = w'
  refine ⟨w', ?_⟩
  cases (w'.tasks join_task).failed <;> rfl

/-- C7: `task_join` returns 0 when the registry has no task with the
identity; when it has one, the call returns -1 if the failed flag of the
target is set in the world at the moment of return and 0 if it is not; no
other value is returned. -/
theorem task_join_result (sched : World → World) (w : World) (task : Nat)
    (tid : rust_task_id) :
    (get_task_by_id w tid = none → task_join sched w task tid = (w, 0))
      ∧ (∀ join_task, get_task_by_id w tid = some join_task →
          (((task_join sched w task tid).1.tasks join_task).failed = true →
              (task_join sched w task tid).2 = -1)
            ∧ (((task_join sched w task tid).1.tasks join_task).failed = false →
              (task_join sched w task tid).2 = 0))
      ∧ ((task_join sched w task tid).2 = 0 ∨ (task_join sched w task tid).2 = -1) := by
  refine ⟨?_, ?_, ?_⟩
  · intro h
    simp [task_join, h]
  · intro jt h
    obtain ⟨w', hw⟩ := task_join_registered sched w task tid jt h
    rw [hw]
    constructor <;> intro hf <;> simp only [] at hf <;> simp [hf]
  · cases h : get_task_by_id w tid with
    | none => simp [task_join, h]
    | some jt =>
      obtain ⟨w', hw⟩ := task_join_registered sched w task tid jt h
      rw [hw]
      cases (w'.tasks jt).failed <;> simp

/-- Witness of C7: identity 9 is not registered; identity 2 is registered,
dead and failed; identity 1 is live and fails while the caller is suspended. -/
theorem task_join_result_witness :
    get_task_by_id sample_world 9 = none
      ∧ task_join sample_sched sample_world 11 9 = (sample_world, 0)
      ∧ get_task_by_id sample_world 2 = some 11
      ∧ (task_join sample_sched sample_world 10 2).2 = -1
      ∧ (task_join sample_sched sample_world 11 1).2 = -1
      ∧ (task_join sample_sched sample_world 10 3).2 = 0 :=
  ⟨by decide,
   (task_join_result sample_sched sample_world 11 9).1 (by decide),
   by decide,
   ((task_join_result sample_sched sample_world 10 2).2.1 11 (by decide)).1 (by decide),
   ((task_join_result sample_sched sample_world 11 1).2.1 10 (by decide)).1 (by decide),
   ((task_join_result sample_sched sample_world 10 3).2.1 12 (by decide)).2 (by decide)⟩

theorem join_code_pair (b : Bool) (a : World) :
    (if (!b) = true then (a, (0 : Int)) else (a, -1)) = (a, if b = true then (-1 : Int) else 0) := by
  cases b <;> rfl

/-- C8: `task_join` blocks exactly when the target is live. When the target
identity is registered and the target is not dead, there is a world `wb`,
reached before the yield, in which the caller is appended to
`tasks_waiting_to_join` of the target, the caller is blocked on the target,
and the events so far are lock, push, block, unlock; the call then yields
at checkpoint 2 from `wb`, and the returned value is read in the world the
yield returns. When the target is missing the world is returned as it was;
when it is dead the objects and the registry are as they were and the only
events are the lock and unlock of the target: no push, no block, no yield. -/
theorem task_join_blocks_iff_live (sched : World → World) (w : World) (task : Nat)
    (tid : rust_task_id) :
    (∀ join_task, get_task_by_id w tid = some join_task →
        rust_task_dead w join_task = false →
        ∃ wb, (wb.tasks join_task).tasks_waiting_to_join
              = (w.tasks join_task).tasks_waiting_to_join ++ [task]
          ∧ (wb.tasks task).state
              = task_state.blocked (rust_cond.task join_task) "joining local task"
          ∧ (∀ q, q ≠ join_task → q ≠ task → wb.tasks q = w.tasks q)
          ∧ wb.log = w.log ++ [Event.lock (rust_cond.task join_task),
              Event.join_push join_task task, Event.block task (rust_cond.task join_task),
              Event.unlock (rust_cond.task join_task)]
          ∧ (task_join sched w task tid).1 = rust_task_yield sched wb task 2
          ∧ (task_join sched w task tid).1.log = wb.log ++ [Event.yield task 2]
          ∧ (task_join sched w task tid).2
              = if ((rust_task_yield sched wb task 2).tasks join_task).failed
                then (-1 : Int) else 0)
      ∧ (get_task_by_id w tid = none → (task_join sched w task tid).1 = w)
      ∧ (∀ join_task, get_task_by_id w tid = some join_task →
          rust_task_dead w join_task = true →
          (task_join sched w task tid).1
              = { w with log := w.log ++ [Event.lock (rust_cond.task join_task),
                    Event.unlock (rust_cond.task join_task)] }
            ∧ (task_join sched w task tid).1.tasks = w.tasks) := by
  refine ⟨?_, ?_, ?_⟩
  · intro jt h hd
    have hd' : rust_task_dead (w.emit (Event.lock (rust_cond.task jt))) jt = false := hd
    refine ⟨((rust_task_block
        (((w.emit (Event.lock (rust_cond.task jt))).set_task jt
          { (w.emit (Event.lock (rust_cond.task jt))).tasks jt with
            tasks_waiting_to_join :=
              ((w.emit (Event.lock (rust_cond.task jt))).tasks jt).tasks_waiting_to_join
                ++ [task] }).emit (Event.join_push jt task))
        task (rust_cond.task jt) "joining local task").emit
          (Event.unlock (rust_cond.task jt))), ?_, ?_, ?_, ?_, ?_, ?_, ?_⟩
    · by_cases ht : jt = task <;>
        simp [rust_task_block, World.emit, World.set_task, ht]
    · simp [rust_task_block, World.emit, World.set_task]
    · intro q hq1 hq2
      simp [rust_task_block, World.emit, World.set_task, hq1, hq2]
    · simp [rust_task_block, World.emit, World.set_task]
    · simp only [task_join, h, hd', join_code_pair]
      rfl
    · simp only [task_join, h, hd', join_code_pair]
      rfl
    · simp only [task_join, h, hd', join_code_pair]
      rfl
  · intro h
    simp [task_join, h]
  · intro jt h hd
    have hd' : rust_task_dead (w.emit (Event.lock (rust_cond.task jt))) jt = true := hd
    constructor
    · simp only [task_join, h, hd', join_code_pair]
      simp [World.emit]
    · simp only [task_join, h, hd', join_code_pair]
      rfl

/-- Witness of C8: task 11 joins the live task of identity 1 (address 10),
and task 10 joins the dead task of identity 2 (address 11). -/
theorem task_join_blocks_iff_live_witness :
    get_task_by_id sample_world 1 = some 10
      ∧ rust_task_dead sample_world 10 = false
      ∧ (task_join sample_sched sample_world 11 1).1.log
          = [Event.lock (rust_cond.task 10), Event.join_push 10 11,
              Event.block 11 (rust_cond.task 10), Event.unlock (rust_cond.task 10),
              Event.yield 11 2]
      ∧ rust_task_dead sample_world 11 = true
      ∧ (task_join sample_sched sample_world 10 2).1.tasks = sample_world.tasks :=
  ⟨by decide, by decide,
   Exists.elim
     ((task_join_blocks_iff_live sample_sched sample_world 11 1).1 10 (by decide) (by decide))
     (fun _ hb => by rw [hb.2.2.2.2.2.1, hb.2.2.2.1]; rfl),
   by decide,
   ((task_join_blocks_iff_live sample_sched sample_world 10 2).2.2 11 (by decide)
     (by decide)).2⟩

/-- A send adds one event to the log: the send itself. -/
theorem chan_send_log (w : World) (chan sptr : Nat) :
    (rust_chan_send w chan sptr).log = w.log ++ [Event.send chan sptr] := by
  unfold rust_chan_send
  dsimp only
  split
  · rw [wakeup_log]
    rfl
  · split <;> rfl

/-- C9: `chan_id_send` sends exactly when both lookups succeed. If the task
identity is not registered, or the task is registered but has no port with
the port identity, the world is returned as it was: nothing is sent, no
task, port or channel changes, and the sender is not failed. If both are
found, the result is that of one send of the payload on `remote_chan` of
the port found, and the log gains that one send event. -/
theorem chan_id_send_iff_found (w : World) (task : Nat) (t : type_desc)
    (target_task_id : rust_task_id) (target_port_id : rust_port_id) (sptr : Nat) :
    (get_task_by_id w target_task_id = none →
        chan_id_send w task t target_task_id target_port_id sptr = w)
      ∧ (∀ target_task, get_task_by_id w target_task_id = some target_task →
          get_port_by_id w target_task target_port_id = none →
          chan_id_send w task t target_task_id target_port_id sptr = w)
      ∧ (∀ target_task port, get_task_by_id w target_task_id = some target_task →
          get_port_by_id w target_task target_port_id = some port →
          chan_id_send w task t target_task_id target_port_id sptr
              = rust_chan_send w (w.ports port).remote_chan sptr
            ∧ (chan_id_send w task t target_task_id target_port_id sptr).log
              = w.log ++ [Event.send (w.ports port).remote_chan sptr]) := by
  refine ⟨?_, ?_, ?_⟩
  · intro h
    simp [chan_id_send, h]
  · intro tt h hp
    simp [chan_id_send, h, hp]
  · intro tt port h hp
    have he : chan_id_send w task t target_task_id target_port_id sptr
        = rust_chan_send w (w.ports port).remote_chan sptr := by
      simp [chan_id_send, h, hp]
    exact ⟨he, by rw [he, chan_send_log]⟩

/-- Witness of C9: in the sample world identity 9 is not registered, task 2
has no port 7, and task 1 has port 7 at address 20 with remote channel 30. -/
theorem chan_id_send_iff_found_witness :
    get_task_by_id sample_world 9 = none
      ∧ chan_id_send sample_world 11 sample_ty 9 7 100 = sample_world
      ∧ get_port_by_id sample_world 11 7 = none
      ∧ chan_id_send sample_world 10 sample_ty 2 7 100 = sample_world
      ∧ get_port_by_id sample_world 10 7 = some 20
      ∧ (chan_id_send sample_world 11 sample_ty 1 7 100).log = [Event.send 30 100]
      ∧ ((chan_id_send sample_world 11 sample_ty 1 7 100).chans 30).buffer = [[100, 101]] :=
  ⟨by decide,
   (chan_id_send_iff_found sample_world 11 sample_ty 9 7 100).1 (by decide),
   by decide,
   (chan_id_send_iff_found sample_world 10 sample_ty 2 7 100).2.1 11 (by decide) (by decide),
   by decide,
   ((chan_id_send_iff_found sample_world 11 sample_ty 1 7 100).2.2 10 20 (by decide)
     (by decide)).2,
   by decide⟩

/-- A receive leaves every task as it was and adds one event to the log. -/
theorem port_receive_frame (w : World) (port dptr : Nat) :
    (rust_port_receive w port dptr).1.tasks = w.tasks
      ∧ (rust_port_receive w port dptr).1.log
          = w.log ++ [Event.receive port dptr (rust_port_receive w port dptr).2] := by
  unfold rust_port_receive
  split <;> exact ⟨rfl, rfl⟩

/-- C10: `port_recv` blocks exactly when the receive on the port finds no
data. When `receive(dptr)` succeeds, `port_recv` returns the world of the
receive with the lock released: every task, so its rendezvous pointer and
its state, is as before the call, and the events are lock, receive, unlock,
with no yield. When it does not succeed there is a world `wb`, reached
before the yield, in which the rendezvous pointer of the task is `dptr`,
the task is blocked on the port, every other task is as before, and the
events are lock, receive, rendezvous, block, unlock; `port_recv` then
yields at checkpoint 3 from `wb`. -/
theorem port_recv_blocks_iff_no_data (sched : World → World) (w : World)
    (task dptr port : Nat) :
    ((rust_port_receive (w.emit (Event.lock (rust_cond.port port))) port dptr).2 = true →
        port_recv sched w task dptr port
            = (rust_port_receive (w.emit (Event.lock (rust_cond.port port))) port dptr).1.emit
                (Event.unlock (rust_cond.port port))
          ∧ (port_recv sched w task dptr port).tasks = w.tasks
          ∧ (port_recv sched w task dptr port).log
              = w.log ++ [Event.lock (rust_cond.port port), Event.receive port dptr true,
                  Event.unlock (rust_cond.port port)])
      ∧ ((rust_port_receive (w.emit (Event.lock (rust_cond.port port))) port dptr).2 = false →
          ∃ wb, (wb.tasks task).rendezvous_ptr = dptr
            ∧ (wb.tasks task).state
                = task_state.blocked (rust_cond.port port) "waiting for rendezvous data"
            ∧ (∀ q, q ≠ task → wb.tasks q = w.tasks q)
            ∧ wb.log = w.log ++ [Event.lock (rust_cond.port port),
                Event.receive port dptr false, Event.rendezvous task dptr,
                Event.block task (rust_cond.port port), Event.unlock (rust_cond.port port)]
            ∧ port_recv sched w task dptr port = rust_task_yield sched wb task 3
            ∧ (port_recv sched w task dptr port).log = wb.log ++ [Event.yield task 3]) := by
  have hfr := port_receive_frame (w.emit (Event.lock (rust_cond.port port))) port dptr
  have hl : (w.emit (Event.lock (rust_cond.port port))).log
      = w.log ++ [Event.lock (rust_cond.port port)] := rfl
  have ht : (w.emit (Event.lock (rust_cond.port port))).tasks = w.tasks := rfl
  rw [hl, ht] at hfr
  unfold port_recv
  dsimp only
  generalize rust_port_receive (w.emit (Event.lock (rust_cond.port port))) port dptr = r
    at hfr ⊢
  obtain ⟨wr, ok⟩ := r
  obtain ⟨hrt, hrl⟩ := hfr
  dsimp only at hrt hrl ⊢
  constructor
  · intro hok
    subst hok
    refine ⟨by simp, ?_, ?_⟩
    · simp [World.emit, hrt]
    · simp [World.emit, hrl]
  · intro hno
    subst hno
    refine ⟨((rust_task_block
        ((wr.set_task task { wr.tasks task with rendezvous_ptr := dptr }).emit
          (Event.rendezvous task dptr))
        task (rust_cond.port port) "waiting for rendezvous data").emit
          (Event.unlock (rust_cond.port port))), ?_, ?_, ?_, ?_, ?_, ?_⟩
    · simp [rust_task_block, World.emit, World.set_task]
    · simp [rust_task_block, World.emit, World.set_task]
    · intro q hq
      simp [rust_task_block, World.emit, World.set_task, hq, hrt]
    · simp [rust_task_block, World.emit, World.set_task, hrl]
    · simp
    · simp [rust_task_yield, World.emit]

/-- Witness of C10: with a message buffered on the port the receive
succeeds and the task is left as it was; with none the task blocks. -/
theorem port_recv_blocks_iff_no_data_witness :
    (rust_port_receive (sample_world_buffered.emit (Event.lock (rust_cond.port 20))) 20 500).2
        = true
      ∧ (port_recv sample_sched sample_world_buffered 10 500 20).tasks
          = sample_world_buffered.tasks
      ∧ (rust_port_receive (sample_world.emit (Event.lock (rust_cond.port 20))) 20 500).2
          = false
      ∧ (port_recv sample_sched sample_world 10 500 20).log
          = [Event.lock (rust_cond.port 20), Event.receive 20 500 false,
              Event.rendezvous 10 500, Event.block 10 (rust_cond.port 20),
              Event.unlock (rust_cond.port 20), Event.yield 10 3] :=
  ⟨by decide,
   ((port_recv_blocks_iff_no_data sample_sched sample_world_buffered 10 500 20).1
     (by decide)).2.1,
   by decide,
   Exists.elim
     ((port_recv_blocks_iff_no_data sample_sched sample_world 10 500 20).2 (by decide))
     (fun _ hb => by rw [hb.2.2.2.2.2, hb.2.2.2.1]; rfl)⟩

/-! ## Allocation failure, contents and lock order -/

/-- C11 (the code at the failing inputs): with an allocator that returns
null, on a 64-bit target. Spill of the inline buffer of three bytes to 10
bytes: both reserve variants store `heap_part->fill` through the null
block. Grow of the spilled buffer to 16 bytes: both variants return with
the null pointer installed as heap part and the capacity raised, so the
buffer is changed and off the heap, its two bytes gone. Copy of 16 bytes
into the empty spilled buffer: the call returns the world as it was, task
10 neither dead nor failed, and the buffer has lost its heap part. -/
theorem ivec_reserve_null_allocation :
    ivec_reserve 64 none sample_ty sample_inline 5 = none
      ∧ ivec_reserve_shared 64 none sample_ty sample_inline 5 = none
      ∧ ivec_reserve 64 none sample_ty sample_spilled 8
          = some { sample_spilled with payload_ptr := none, alloc := 16 }
      ∧ ivec_reserve_shared 64 none sample_ty sample_spilled 8
          = some { sample_spilled with payload_ptr := none, alloc := 16 }
      ∧ ivec_on_heap sample_spilled = true
      ∧ get_ivec_size sample_spilled = 2
      ∧ ivec_on_heap { sample_spilled with payload_ptr := none, alloc := 16 } = false
      ∧ get_ivec_size { sample_spilled with payload_ptr := none, alloc := 16 } = 0
      ∧ (∃ v', ivec_copy_from_buf 64 none sample_world 10 sample_ty sample_spilled_empty 100 8
            = some (sample_world, v')
          ∧ v'.payload_ptr = none ∧ v'.alloc = 16)
      ∧ (sample_world.tasks 10).failed = false
      ∧ (sample_world.tasks 10).state = task_state.runnable := by
  refine ⟨by decide, by decide, by decide, by decide, by decide, by decide, by decide,
    by decide, ⟨_, rfl, rfl, rfl⟩, by decide, by decide⟩

/-- The first `n` bytes of a byte array rebuilt index by index are the
first `n` bytes of the array `l` it agrees with below `n`. -/
theorem take_map_range (f : Nat → Nat) (l : List Nat) (n cap : Nat) (hn : n ≤ cap)
    (hl : n ≤ l.length) (hf : ∀ i, i < n → f i = l.getD i 0) :
    ((List.range cap).map f).take n = l.take n := by
  apply List.ext_getElem
  · simp [List.length_take, Nat.min_eq_left hn, Nat.min_eq_left hl]
  · intro i h1 h2
    have hi : i < n := by
      simp only [List.length_take] at h2
      omega
    have hil : i < l.length := by omega
    simp only [List.getElem_take, List.getElem_map, List.getElem_range]
    rw [hf i hi, List.getD_eq_getElem l 0 hil]

theorem bytes_read_eq_take (l : List Nat) (n : Nat) (hl : n ≤ l.length) :
    bytes_read l n = l.take n := by
  have h := take_map_range (fun i => l.getD i 0) l n n (Nat.le_refl n) hl (fun _ _ => rfl)
  rw [← h]
  simp [bytes_read]

/-- Outside of a null allocation `ivec_reserve` keeps the logical contents:
on a buffer whose active storage holds its reported size, a call whose
allocation, if it makes one, succeeds returns a buffer with the same
reported size and the same first size bytes of active storage, whichever
branch it takes: already sufficient, spill, or grow. -/
theorem ivec_reserve_keeps_contents (bits : Nat) (mem : Option (Nat → Nat)) (ty : type_desc)
    (v : rust_ivec) (n : Nat)
    (hdata : get_ivec_size v ≤ (ivec_active_data v).length)
    (halloc : v.alloc < size_t_wrap bits (n * ty.size) → mem.isSome = true) :
    ∃ v', ivec_reserve bits mem ty v n = some v'
      ∧ ivec_reserve_shared bits mem ty v n = some v'
      ∧ get_ivec_size v' = get_ivec_size v
      ∧ (ivec_active_data v').take (get_ivec_size v')
          = (ivec_active_data v).take (get_ivec_size v) := by
  have key : ∃ v', ivec_reserve bits mem ty v n = some v'
      ∧ get_ivec_size v' = get_ivec_size v
      ∧ (ivec_active_data v').take (get_ivec_size v')
          = (ivec_active_data v).take (get_ivec_size v) := by
    by_cases hle : size_t_wrap bits (n * ty.size) ≤ v.alloc
    · exact ⟨v, ivec_reserve_within bits mem ty v n hle, rfl, rfl⟩
    · obtain ⟨g, hg⟩ := Option.isSome_iff_exists.mp (halloc (Nat.lt_of_not_le hle))
      subst hg
      by_cases hf : v.fill = 0
      · cases hp : v.payload_ptr with
        | none =>
          simp [ivec_reserve, hle, hf, hp, heap_malloc, get_ivec_size]
        | some h0 =>
          have hs : get_ivec_size v = h0.fill := by simp [get_ivec_size, hf, hp]
          have ha : ivec_active_data v = h0.data := by
            simp [ivec_active_data, ivec_on_heap, hf, hp]
          rw [hs] at hdata
          rw [ha] at hdata
          rw [hs, ha]
          refine ⟨{ fill := v.fill, alloc := size_t_wrap bits (n * ty.size),
                    payload_data := v.payload_data,
                    payload_ptr := some
                      { fill := h0.fill,
                        data := h0.data ++ fresh_bytes (fun i => g (h0.data.length + i))
                          (size_t_wrap bits (size_t_wrap bits (n * ty.size) + sizeof_size_t bits)
                            - sizeof_size_t bits - h0.data.length) } },
            by simp [ivec_reserve, hle, hf, hp, heap_realloc], ?_, ?_⟩
          · simp [get_ivec_size, hf]
          · simp only [get_ivec_size, ivec_active_data, ivec_on_heap, hf]
            simp only [bne_self_eq_false, Bool.false_eq_true, if_false, beq_self_eq_true,
              Option.isSome_some, Bool.and_self, if_true]
            exact List.take_append_of_le_length hdata
      · have hs : get_ivec_size v = v.fill := by simp [get_ivec_size, hf]
        have ha : ivec_active_data v = v.payload_data := by
          simp [ivec_active_data, ivec_on_heap, hf]
        rw [hs] at hdata
        rw [ha] at hdata
        rw [hs, ha]
        refine ⟨{ fill := 0, alloc := size_t_wrap bits (n * ty.size),
                  payload_data := v.payload_data,
                  payload_ptr := some
                    { fill := v.fill,
                      data := bytes_write
                        (fresh_bytes (fun i => g (i + 1))
                          (size_t_wrap bits (size_t_wrap bits (n * ty.size) + sizeof_size_t bits)
                            - sizeof_size_t bits))
                        (bytes_read v.payload_data v.fill) } },
          by simp [ivec_reserve, hle, hf, heap_malloc], ?_, ?_⟩
        · simp [get_ivec_size]
        · simp only [get_ivec_size, ivec_active_data, ivec_on_heap]
          simp only [bne_self_eq_false, Bool.false_eq_true, if_false, beq_self_eq_true,
            Option.isSome_some, Bool.and_self, if_true]
          rw [bytes_write_take _ _ _ (by simp [bytes_read])]
          exact bytes_read_eq_take _ _ hdata
  obtain ⟨v', h1, h2, h3⟩ := key
  exact ⟨v', h1, by rw [ivec_reserve_shared_eq]; exact h1, h2, h3⟩

/-- The three branches on the samples, on a 64-bit target: the request of 2
bytes that fits (no allocator needed), the spill of the inline buffer of
three bytes to 10 bytes, the grow of the spilled buffer of two bytes to 16,
and the grow asked with `2 ^ 63 - 1` elements, whose block size wraps. -/
theorem ivec_reserve_keeps_contents_samples :
    ivec_reserve 64 none sample_ty sample_inline 1 = some sample_inline
      ∧ (∃ v', ivec_reserve 64 (some fun _ => 0) sample_ty sample_inline 5 = some v'
          ∧ get_ivec_size v' = 3 ∧ (ivec_active_data v').take (get_ivec_size v') = [1, 2, 3])
      ∧ (∃ v', ivec_reserve 64 (some fun _ => 0) sample_ty sample_spilled 8 = some v'
          ∧ get_ivec_size v' = 2 ∧ (ivec_active_data v').take (get_ivec_size v') = [5, 6])
      ∧ (∃ v', ivec_reserve 64 (some fun _ => 0) sample_ty sample_spilled (2 ^ 63 - 1) = some v'
          ∧ get_ivec_size v' = 2 ∧ (ivec_active_data v').take (get_ivec_size v') = [5, 6]) :=
  ⟨ivec_reserve_within 64 none sample_ty sample_inline 1 (by decide),
   Exists.elim
     (ivec_reserve_keeps_contents 64 (some fun _ => 0) sample_ty sample_inline 5
       (by decide) (by decide))
     (fun v' hv => ⟨v', hv.1, hv.2.2.1, hv.2.2.2⟩),
   Exists.elim
     (ivec_reserve_keeps_contents 64 (some fun _ => 0) sample_ty sample_spilled 8
       (by decide) (by decide))
     (fun v' hv => ⟨v', hv.1, hv.2.2.1, hv.2.2.2⟩),
   Exists.elim
     (ivec_reserve_keeps_contents 64 (some fun _ => 0) sample_ty sample_spilled (2 ^ 63 - 1)
       (by decide) (by decide))
     (fun v' hv => ⟨v', hv.1, hv.2.2.1, hv.2.2.2⟩)⟩

/-- C12 (the code at the failing input): on a 64-bit target the spilled
buffer of capacity 8 reports size 2 and holds the bytes 5, 6. Asked for 8
elements of size 2 with a `realloc` that returns null, `ivec_reserve` and
`ivec_reserve_shared` return a buffer of reported size 0 with no byte of
the contents: the null pointer has replaced the heap block. Asked to spill
the inline buffer of three bytes with a `malloc` that returns null, the
call ends in the store through the null block and returns no buffer. -/
theorem ivec_reserve_null_realloc_contents :
    get_ivec_size sample_spilled = 2
      ∧ (ivec_active_data sample_spilled).take (get_ivec_size sample_spilled) = [5, 6]
      ∧ (∃ v', ivec_reserve 64 none sample_ty sample_spilled 8 = some v'
          ∧ ivec_reserve_shared 64 none sample_ty sample_spilled 8 = some v'
          ∧ get_ivec_size v' = 0
          ∧ (ivec_active_data v').take (get_ivec_size v') = [])
      ∧ get_ivec_size sample_inline = 3
      ∧ ivec_reserve 64 none sample_ty sample_inline 5 = none :=
  ⟨by decide, by decide,
   ⟨{ sample_spilled with payload_ptr := none, alloc := 16 },
    by decide, by decide, by decide, by decide⟩,
   by decide, by decide⟩

/-- The events `port_recv` adds to the log, by the outcome of the receive. -/
theorem port_recv_trace (sched : World → World) (w : World) (task dptr port : Nat) :
    (port_recv sched w task dptr port).log = w.log ++
      (if (rust_port_receive (w.emit (Event.lock (rust_cond.port port))) port dptr).2 = true
        then [Event.lock (rust_cond.port port), Event.receive port dptr true,
              Event.unlock (rust_cond.port port)]
        else [Event.lock (rust_cond.port port), Event.receive port dptr false,
              Event.rendezvous task dptr, Event.block task (rust_cond.port port),
              Event.unlock (rust_cond.port port), Event.yield task 3]) := by
  have hfr := (port_receive_frame (w.emit (Event.lock (rust_cond.port port))) port dptr).2
  have hl : (w.emit (Event.lock (rust_cond.port port))).log
      = w.log ++ [Event.lock (rust_cond.port port)] := rfl
  rw [hl] at hfr
  unfold port_recv
  dsimp only
  generalize rust_port_receive (w.emit (Event.lock (rust_cond.port port))) port dptr = r
    at hfr ⊢
  obtain ⟨wr, ok⟩ := r
  dsimp only at hfr ⊢
  cases ok
  · simp [rust_task_yield, rust_task_block, World.emit, World.set_task, hfr]
  · simp [World.emit, hfr]

/-- The check `lock_order` rejects a yield made while the lock is held, and
a block made after the lock is released. -/
theorem lock_order_rejects (task dptr port : Nat) :
    lock_order port lock_phase.before
        [Event.lock (rust_cond.port port), Event.receive port dptr false,
          Event.yield task 3, Event.unlock (rust_cond.port port)] = false
      ∧ lock_order port lock_phase.before
        [Event.lock (rust_cond.port port), Event.receive port dptr false,
          Event.unlock (rust_cond.port port), Event.block task (rust_cond.port port)]
          = false := by
  constructor <;> simp [lock_order]

/-- C13: in `port_recv` the lock of the port is never held while the task
yields. The events a call adds to the log are either lock, receive, unlock
(the receive found data) or lock, receive, write of the rendezvous pointer,
block, unlock, yield at checkpoint 3; in both, the receive, the write of
the rendezvous pointer and the block lie between the acquire and the
release of the lock, and the yield comes after the release. -/
theorem port_recv_lock_order (sched : World → World) (w : World) (task dptr port : Nat) :
    ∃ evs, (port_recv sched w task dptr port).log = w.log ++ evs
      ∧ lock_order port lock_phase.before evs = true
      ∧ (evs = [Event.lock (rust_cond.port port), Event.receive port dptr true,
                Event.unlock (rust_cond.port port)]
          ∨ evs = [Event.lock (rust_cond.port port), Event.receive port dptr false,
                Event.rendezvous task dptr, Event.block task (rust_cond.port port),
                Event.unlock (rust_cond.port port), Event.yield task 3]) := by
  refine ⟨_, port_recv_trace sched w task dptr port, ?_, ?_⟩
  · split <;> simp [lock_order]
  · split
    · exact Or.inl rfl
    · exact Or.inr rfl

end RustBuiltin
